import Mathlib

/-!
Verification of the WebGPU buffer manager (`WebGPUBufferManager`):
raw/logical buffer creation, alignment-corrected uploads (`setSubData`),
asynchronous read-back post-processing (row compaction, rejection handling,
destination-view writes), and deferred reference-counted release.

Bytes are modelled as `Nat`, JS numbers that may go negative as `Int`,
backing `ArrayBuffer`s as `List Nat`, and GPU-side buffer contents as a
function `Nat → Nat` together with an explicit size.  Fallible JS
operations (typed-array construction with an out-of-range offset,
`GPUQueue.writeBuffer` validation) return `Option`.
-/

/-- A JS `ArrayBufferView`: a window of `byteLength` bytes into a backing
`ArrayBuffer` (`buffer`), starting at `byteOffset`. -/
structure ArrayBufferView where
  buffer : List Nat
  byteOffset : Nat
  byteLength : Nat
  deriving DecidableEq, Repr

/-- A GPU-side buffer: its allocated size and its byte contents. -/
structure GPUBufferModel where
  size : Nat
  data : Nat → Nat

/-- JS `(n + 3) & ~3` on a non-negative number: round `n` up to the next
multiple of 4 (clear the two low bits of `n + 3`). -/
def align4 (n : Nat) : Nat := n + 3 - (n + 3) % 4

/-- JS `(x + 3) & ~3` on a possibly negative 32-bit integer: two's-complement
clearing of the low two bits is `x - x mod 4` with a non-negative remainder,
which is exactly `Int.emod`. -/
def align4I (x : Int) : Int := x + 3 - (x + 3) % 4

/-- JS `new Uint8Array(buffer, byteOffset, length)`: returns the selected
bytes, or `none` (a thrown `RangeError`) when the offset is negative or the
window leaves the backing buffer. -/
def jsUint8ArraySlice (buffer : List Nat) (byteOffset : Int) (length : Int) : Option (List Nat) :=
  if 0 ≤ byteOffset ∧ 0 ≤ length ∧ byteOffset + length ≤ (buffer.length : Int)
  then some ((buffer.drop byteOffset.toNat).take length.toNat)
  else none

/-- `GPUQueue.writeBuffer(buffer, bufferOffset, data, dataOffset, size)`:
validation requires non-negative offsets, a 4-byte aligned `bufferOffset` and
`size`, and both the source window and the destination window in bounds;
on success the destination bytes `[bufferOffset, bufferOffset+size)` are
replaced by the source bytes. -/
def writeBuffer (buf : GPUBufferModel) (bufferOffset : Int) (data : List Nat)
    (dataOffset : Int) (size : Int) : Option GPUBufferModel :=
  if 0 ≤ bufferOffset ∧ 0 ≤ dataOffset ∧ 0 ≤ size ∧ bufferOffset % 4 = 0 ∧ size % 4 = 0 ∧
      dataOffset + size ≤ (data.length : Int) ∧ bufferOffset + size ≤ (buf.size : Int)
  then some ⟨buf.size, fun i =>
    if bufferOffset.toNat ≤ i ∧ i < bufferOffset.toNat + size.toNat
    then data.getD (dataOffset.toNat + (i - bufferOffset.toNat)) 0
    else buf.data i⟩
  else none

/-- `WebGPUBufferManager.setRawData`: adds the view's `byteOffset` to the
source offset and calls `writeBuffer` with no alignment correction. -/
def setRawData (buf : GPUBufferModel) (dstByteOffset : Int) (src : ArrayBufferView)
    (srcByteOffset : Int) (byteLength : Int) : Option GPUBufferModel :=
  writeBuffer buf dstByteOffset src.buffer (srcByteOffset + src.byteOffset) byteLength

/-- The scratch-buffer construction on the fallback path of `setSubData`:
`new Uint8Array(byteLength)` (zero-filled, `RangeError` when negative) then
`tmpBuffer.set(new Uint8Array(src.buffer, src.byteOffset + srcByteOffset, originalByteLength))`,
which copies `originalByteLength` bytes read from the backing buffer at the
(already adjusted) source offset to position 0 of the scratch buffer. -/
def buildScratch (src : ArrayBufferView) (adjSrcOffset : Int)
    (originalByteLength byteLength : Int) : Option ArrayBufferView :=
  if 0 ≤ byteLength then
    match jsUint8ArraySlice src.buffer ((src.byteOffset : Int) + adjSrcOffset) originalByteLength with
    | some piece =>
        if piece.length ≤ byteLength.toNat
        then some ⟨piece ++ List.replicate (byteLength.toNat - piece.length) 0, 0, byteLength.toNat⟩
        else none
    | none => none
  else none

/-- `WebGPUBufferManager.setSubData`: alignment-corrected write.  A zero
`byteLength` defaults to `src.byteLength - srcByteOffset`; the destination
offset is shifted back to the previous 4-byte boundary (`startPre`), the
length widened to a multiple of 4, and when the backing buffer measured from
the view's `byteOffset` is smaller than the widened length, a scratch copy is
substituted as the source. -/
def setSubData (dataBuffer : GPUBufferModel) (dstByteOffset : Nat) (src : ArrayBufferView)
    (srcByteOffset : Nat) (byteLength : Nat) : Option GPUBufferModel :=
  let byteLength1 : Int := if byteLength = 0 then (src.byteLength : Int) - srcByteOffset else (byteLength : Int)
  let startPre : Nat := dstByteOffset % 4
  let srcOff : Int := (srcByteOffset : Int) - startPre
  let dstOff : Int := (dstByteOffset : Int) - startPre
  let byteLengthA : Int := align4I (byteLength1 + startPre)
  let backingBufferSize : Int := (src.buffer.length : Int) - src.byteOffset
  if backingBufferSize < byteLengthA then
    match buildScratch src srcOff byteLength1 byteLengthA with
    | some tmp => setRawData dataBuffer dstOff tmp 0 byteLengthA
    | none => none
  else
    setRawData dataBuffer dstOff src srcOff byteLengthA

/-- A logical `WebGPUDataBuffer` handle as produced by `createBuffer`:
the wrapped device buffer, the reference count (`references--` in
`releaseBuffer` can drive it below zero, hence `Int`), the pre-alignment
`capacity`, and the owning engine's `uniqueId`. -/
structure WebGPUDataBuffer where
  buffer : GPUBufferModel
  references : Int
  capacity : Nat
  engineId : Nat

/-- The `viewOrSize` union parameter of `createRawBuffer`/`createBuffer`. -/
inductive ViewOrSize where
  | view (v : ArrayBufferView)
  | size (n : Nat)

/-- The byte length the manager extracts from `viewOrSize`
(`byteLength` of a view, the number itself otherwise). -/
def ViewOrSize.byteLen : ViewOrSize → Nat
  | .view v => v.byteLength
  | .size n => n

/-- `WebGPUBufferManager.createRawBuffer`: allocates a device buffer of the
4-byte aligned length; a fresh (not mapped-at-creation) WebGPU buffer is
zero-filled. -/
def createRawBuffer (viewOrSize : ViewOrSize) : GPUBufferModel :=
  ⟨align4 viewOrSize.byteLen, fun _ => 0⟩

/-- `WebGPUBufferManager.createBuffer`: wraps `createRawBuffer`, sets
`references = 1`, `capacity` to the pre-alignment byte length and `engineId`
to the engine's `uniqueId`, and, when given a view, uploads it with
`setSubData(dataBuffer, 0, view)` (whose failure propagates). -/
def createBuffer (engineUniqueId : Nat) (viewOrSize : ViewOrSize) : Option WebGPUDataBuffer :=
  match viewOrSize with
  | .view v =>
      match setSubData (createRawBuffer viewOrSize) 0 v 0 0 with
      | some raw2 => some ⟨raw2, 1, v.byteLength, engineUniqueId⟩
      | none => none
  | .size n => some ⟨createRawBuffer viewOrSize, 1, n, engineUniqueId⟩

/-- The manager state observable by the release path: the
`_deferredReleaseBuffers` queue (buffers denoted by numeric ids) plus the
trace of ids on which a device-level `destroy()` has been issued. -/
structure BufferManagerState where
  deferredReleaseBuffers : List Nat
  destroyed : List Nat
  deriving DecidableEq, Repr

/-- A logical handle as seen by `releaseBuffer`: the id of its underlying
raw buffer and its reference count. -/
structure LogicalHandle where
  rawId : Nat
  references : Int
  deriving DecidableEq, Repr

/-- The argument of `releaseBuffer`: either a raw `GPUBuffer` or a logical
`DataBuffer` handle (the code probes `underlyingResource === undefined`). -/
inductive BufferArg where
  | raw (id : Nat)
  | logical (h : LogicalHandle)

/-- `releaseBuffer` on a raw `GPUBuffer`: unconditionally pushed onto the
deferred-release queue; returns `true`. -/
def releaseRawBuffer (st : BufferManagerState) (id : Nat) : BufferManagerState × Bool :=
  ({ st with deferredReleaseBuffers := st.deferredReleaseBuffers ++ [id] }, true)

/-- `releaseBuffer` on a logical handle: `buffer.references--`, then enqueue
the underlying raw buffer and return `true` exactly when the decremented
count equals 0; the (mutated) handle is returned as well. -/
def releaseDataBuffer (st : BufferManagerState) (h : LogicalHandle) :
    BufferManagerState × LogicalHandle × Bool :=
  let h2 : LogicalHandle := { h with references := h.references - 1 }
  if h2.references = 0 then
    ({ st with deferredReleaseBuffers := st.deferredReleaseBuffers ++ [h.rawId] }, h2, true)
  else
    (st, h2, false)

/-- `WebGPUBufferManager.releaseBuffer`: dispatches on the runtime kind of
its argument; the updated handle (when one was given) is returned alongside
the new state and the boolean result. -/
def releaseBuffer (st : BufferManagerState) : BufferArg → BufferManagerState × Option LogicalHandle × Bool
  | .raw id =>
      let r := releaseRawBuffer st id
      (r.1, none, r.2)
  | .logical h =>
      let r := releaseDataBuffer st h
      (r.1, some r.2.1, r.2.2)

/-- `WebGPUBufferManager.destroyDeferredBuffers`: calls `destroy()` on every
queued buffer in order, then resets the queue's length to 0. -/
def destroyDeferredBuffers (st : BufferManagerState) : BufferManagerState :=
  { deferredReleaseBuffers := [],
    destroyed := st.destroyed ++ st.deferredReleaseBuffers }

/-- The manager operations that touch the release-path state, for reasoning
about operation sequences on one logical handle. -/
inductive MgrOp where
  | releaseLogical
  | releaseRaw (id : Nat)
  | destroyDeferred

/-- The release-path state together with the tracked logical handle. -/
structure TraceState where
  mgr : BufferManagerState
  handle : LogicalHandle
  deriving DecidableEq, Repr

/-- One manager operation applied to the tracked state. -/
def applyOp (s : TraceState) : MgrOp → TraceState
  | .releaseLogical =>
      let r := releaseDataBuffer s.mgr s.handle
      ⟨r.1, r.2.1⟩
  | .releaseRaw id => ⟨(releaseRawBuffer s.mgr id).1, s.handle⟩
  | .destroyDeferred => ⟨destroyDeferredBuffers s.mgr, s.handle⟩

/-- A sequence of manager operations applied in order. -/
def applyOps (s : TraceState) : List MgrOp → TraceState
  | [] => s
  | op :: rest => applyOps (applyOp s op) rest

/-- `true` when every `releaseLogical` in the sequence happens while the
tracked reference count is still positive (no over-release). -/
def guardedOps : Int → List MgrOp → Bool
  | _, [] => true
  | refs, MgrOp.releaseLogical :: rest => decide (0 < refs) && guardedOps (refs - 1) rest
  | refs, MgrOp.releaseRaw _ :: rest => guardedOps refs rest
  | refs, MgrOp.destroyDeferred :: rest => guardedOps refs rest

/-- Outcome of the promise returned by `readDataFromBuffer`. -/
inductive ReadBackOutcome where
  | resolved (data : List Nat)
  | rejected (reason : Nat)
  deriving DecidableEq, Repr

/-- The rejection handler of `readDataFromBuffer`'s `mapAsync` promise:
when the engine is disposed or its current `uniqueId` differs from the
`engineId` captured at call time, resolve with `new Uint8Array()` (empty);
otherwise reject with the original reason. -/
def readRejectionHandler (isDisposed : Bool) (currentUniqueId capturedEngineId : Nat)
    (reason : Nat) : ReadBackOutcome :=
  if isDisposed || decide (currentUniqueId ≠ capturedEngineId)
  then .resolved []
  else .rejected reason

/-- The inner loop `for (x = 0; x < n; ...) data2[offset++] = data2[offset2++]`:
`n` sequential byte moves with both cursors advancing, reads performed on the
current (partially overwritten) contents. -/
def copyBytesLoop : (Nat → Nat) → Nat → Nat → Nat → (Nat → Nat)
  | d, _, _, 0 => d
  | d, dst, src, n + 1 => copyBytesLoop (Function.update d dst (d src)) (dst + 1) (src + 1) n

/-- The row loop `for (y = 1; y < height; ...)` of the compaction pass,
started at row `y` with write cursor `offset` and `n` rows remaining:
each row moves `bpr` bytes from `y * bpra` down to the write cursor. -/
def compactRowsAux : (Nat → Nat) → Nat → Nat → Nat → Nat → Nat → (Nat → Nat) × Nat
  | d, offset, _, _, _, 0 => (d, offset)
  | d, offset, bpr, bpra, y, n + 1 =>
      compactRowsAux (copyBytesLoop d offset (y * bpra) bpr) (offset + bpr) bpr bpra (y + 1) n

/-- The `bytesPerRow !== bytesPerRowAligned` block of `readDataFromBuffer`:
when the stride was padded, double both row widths if half floats were
promoted to floats (`floatFormat === 1 && !noDataConversion`), run the
compaction loops starting at `offset = bytesPerRow`, `y = 1`, and re-window
the result to the final `offset` bytes; otherwise the data and its length are
left untouched. -/
def rowCompactionPass (data : Nat → Nat) (dataLen : Nat)
    (bytesPerRow bytesPerRowAligned height floatFormat : Nat) (noDataConversion : Bool) :
    (Nat → Nat) × Nat :=
  if bytesPerRow = bytesPerRowAligned then (data, dataLen)
  else
    let bpr := if floatFormat = 1 ∧ noDataConversion = false then bytesPerRow * 2 else bytesPerRow
    let bpra := if floatFormat = 1 ∧ noDataConversion = false then bytesPerRowAligned * 2 else bytesPerRowAligned
    compactRowsAux data bpr bpr bpra 1 (height - 1)

/-- The destination write of the byte and float conversion paths with a
caller-supplied view: `new Uint8Array(data.buffer)` (resp.
`new Float32Array(data.buffer)`) spans the whole backing buffer from
position 0 — the view's own `byteOffset`/`byteLength` are discarded — and
`.set` copies the mapped contents there (`RangeError` when it does not fit). -/
def writeReadbackToDest (dest : ArrayBufferView) (mapped : List Nat) : Option (List Nat) :=
  if mapped.length ≤ dest.buffer.length
  then some (mapped ++ dest.buffer.drop mapped.length)
  else none

/-- Modelled from the spec: `FromHalfFloat` (`Misc/textureTools`, not under
`src/`) performs the exact IEEE-754 half-to-single promotion; values are
represented by their bit patterns (16-bit in, 32-bit out). -/
def fromHalfFloatBits (h : Nat) : Nat :=
  let h := h % 65536
  let s := h / 32768
  let e := (h / 1024) % 32
  let m := h % 1024
  if e = 0 then
    if m = 0 then s * 2 ^ 31
    else
      let k := Nat.log2 m
      s * 2 ^ 31 + (103 + k) * 2 ^ 23 + (m - 2 ^ k) * 2 ^ (23 - k)
  else if e = 31 then s * 2 ^ 31 + 255 * 2 ^ 23 + m * 2 ^ 13
  else s * 2 ^ 31 + (e + 112) * 2 ^ 23 + m * 2 ^ 13

/-- `_getHalfFloatAsFloatRGBAArrayBuffer(dataLength, arrayBuffer, destArray)`
with a caller-supplied `destArray`: writes `destArray[i] = FromHalfFloat(src[i])`
for `i < dataLength` THROUGH the `Float32Array` view — honouring its element
offset into the backing storage (`viewWordOffset`), with out-of-view indices
silently dropped as JS typed arrays do.  The backing storage is a list of
32-bit words. -/
def getHalfFloatAsFloatRGBA (destWords : List Nat) (viewWordOffset viewWordLength : Nat)
    (srcHalves : List Nat) (dataLength : Nat) : List Nat :=
  (List.range destWords.length).map fun j =>
    if viewWordOffset ≤ j ∧ j < viewWordOffset + min dataLength viewWordLength
    then fromHalfFloatBits (srcHalves.getD (j - viewWordOffset) 0)
    else destWords.getD j 0

/-! ## Helper lemmas -/

theorem align4_le (n : Nat) : n ≤ align4 n := by
  unfold align4; omega

theorem align4_mod_four (n : Nat) : align4 n % 4 = 0 := by
  unfold align4; omega

theorem align4_lt (n : Nat) : align4 n < n + 4 := by
  unfold align4; omega

theorem align4I_natCast (n : Nat) : align4I (n : Int) = (align4 n : Int) := by
  unfold align4 align4I; omega

theorem align4I_le (x : Int) : x ≤ align4I x := by
  unfold align4I; omega

theorem align4I_emod_four (x : Int) : align4I x % 4 = 0 := by
  unfold align4I; omega

theorem align4I_nonneg (x : Int) (h1 : 0 ≤ x) : 0 ≤ align4I x := by
  unfold align4I; omega

theorem releaseDataBuffer_handle (st : BufferManagerState) (h1 : LogicalHandle) :
    (releaseDataBuffer st h1).2.1 = ⟨h1.rawId, h1.references - 1⟩ := by
  unfold releaseDataBuffer
  by_cases h0 : h1.references - 1 = 0 <;> simp [h0]

/-! ## Claim theorems -/

/-- C4: when the `mapAsync` promise of `readDataFromBuffer` is rejected, the
handler resolves with an empty byte view whenever the owning engine is
disposed or its current `uniqueId` differs from the one captured when the
read began, and propagates the rejection reason otherwise. -/
theorem readRejectionHandler_spec (isDisposed : Bool) (currentUniqueId capturedEngineId reason : Nat) :
    ((isDisposed = true ∨ currentUniqueId ≠ capturedEngineId) →
      readRejectionHandler isDisposed currentUniqueId capturedEngineId reason = .resolved [])
    ∧ (isDisposed = false → currentUniqueId = capturedEngineId →
      readRejectionHandler isDisposed currentUniqueId capturedEngineId reason = .rejected reason) := by
  constructor
  · rintro (h1 | h1) <;> simp [readRejectionHandler, h1]
  · intro h1 h2
    simp [readRejectionHandler, h1, h2]

theorem readRejectionHandler_spec_witness :
    readRejectionHandler true 5 5 42 = .resolved []
    ∧ readRejectionHandler false 7 7 9 = .rejected 9 :=
  ⟨(readRejectionHandler_spec true 5 5 42).1 (Or.inl rfl),
   (readRejectionHandler_spec false 7 7 9).2 rfl rfl⟩

/-- C5: `releaseBuffer` on a raw device buffer unconditionally enqueues it
and returns `true`; on a logical handle it decrements `references` and
enqueues the raw buffer returning `true` exactly when the decremented count
is 0 — so a handle at `references = 1` triggers on its single release, and a
handle at `references = 2` returns `false` then `true`. -/
theorem releaseBuffer_spec (st : BufferManagerState) (h1 : LogicalHandle) (id : Nat) :
    releaseBuffer st (.raw id) =
      ({ st with deferredReleaseBuffers := st.deferredReleaseBuffers ++ [id] }, none, true)
    ∧ (releaseBuffer st (.logical h1)).2.2 = decide (h1.references - 1 = 0)
    ∧ (releaseBuffer st (.logical h1)).1.deferredReleaseBuffers =
        (if h1.references - 1 = 0 then st.deferredReleaseBuffers ++ [h1.rawId]
         else st.deferredReleaseBuffers)
    ∧ (h1.references = 1 →
        releaseBuffer st (.logical h1) =
          ({ st with deferredReleaseBuffers := st.deferredReleaseBuffers ++ [h1.rawId] },
            some ⟨h1.rawId, 0⟩, true))
    ∧ (h1.references = 2 →
        releaseBuffer st (.logical h1) = (st, some ⟨h1.rawId, 1⟩, false)
        ∧ releaseBuffer st (.logical ⟨h1.rawId, 1⟩) =
            ({ st with deferredReleaseBuffers := st.deferredReleaseBuffers ++ [h1.rawId] },
              some ⟨h1.rawId, 0⟩, true)) := by
  refine ⟨rfl, ?_, ?_, ?_, ?_⟩
  · by_cases h0 : h1.references - 1 = 0 <;>
      simp [releaseBuffer, releaseDataBuffer, h0]
  · by_cases h0 : h1.references - 1 = 0 <;>
      simp [releaseBuffer, releaseDataBuffer, h0]
  · intro h0
    simp [releaseBuffer, releaseDataBuffer, h0]
  · intro h0
    constructor <;> simp [releaseBuffer, releaseDataBuffer, h0]

theorem releaseBuffer_spec_witness :
    releaseBuffer ⟨[], []⟩ (.logical ⟨5, 1⟩) = (⟨[5], []⟩, some ⟨5, 0⟩, true)
    ∧ releaseBuffer ⟨[], []⟩ (.logical ⟨5, 2⟩) = (⟨[], []⟩, some ⟨5, 1⟩, false) :=
  ⟨(releaseBuffer_spec ⟨[], []⟩ ⟨5, 1⟩ 0).2.2.2.1 rfl,
   ((releaseBuffer_spec ⟨[], []⟩ ⟨5, 2⟩ 0).2.2.2.2 rfl).1⟩

/-- C8: `destroyDeferredBuffers` issues a device destroy on every queued
buffer (none skipped), leaves the queue empty, and a second call with no
intervening enqueue is a no-op. -/
theorem destroyDeferredBuffers_spec (st : BufferManagerState) :
    (destroyDeferredBuffers st).destroyed = st.destroyed ++ st.deferredReleaseBuffers
    ∧ (destroyDeferredBuffers st).deferredReleaseBuffers = []
    ∧ destroyDeferredBuffers (destroyDeferredBuffers st) = destroyDeferredBuffers st := by
  simp [destroyDeferredBuffers]

/-- C6 counterexample: starting from a freshly created handle
(`references = 1`), the operation sequence of two logical releases drives
`references` to `-1`: the code decrements unconditionally, so the field does
become negative under over-release. -/
theorem references_can_go_negative :
    (applyOps ⟨⟨[], []⟩, ⟨0, 1⟩⟩ [MgrOp.releaseLogical, MgrOp.releaseLogical]).handle.references < 0 := by
  decide

/-- C6 (amended): along any operation sequence in which a logical release is
only performed while `references` is still positive, the reference count
never becomes negative. -/
theorem guarded_release_references_nonneg (ops : List MgrOp) (s : TraceState)
    (hg : guardedOps s.handle.references ops = true) (h0 : 0 ≤ s.handle.references) :
    0 ≤ (applyOps s ops).handle.references := by
  induction ops generalizing s with
  | nil => simpa [applyOps] using h0
  | cons op rest ih =>
    cases op with
    | releaseLogical =>
        simp only [guardedOps, Bool.and_eq_true, decide_eq_true_eq] at hg
        simp only [applyOps, applyOp]
        apply ih
        · rw [releaseDataBuffer_handle]
          exact hg.2
        · rw [releaseDataBuffer_handle]
          simp only
          omega
    | releaseRaw id =>
        simp only [guardedOps] at hg
        simp only [applyOps, applyOp]
        exact ih _ hg h0
    | destroyDeferred =>
        simp only [guardedOps] at hg
        simp only [applyOps, applyOp]
        exact ih _ hg h0

theorem guarded_release_references_nonneg_witness :
    guardedOps (TraceState.handle ⟨⟨[], []⟩, ⟨0, 1⟩⟩).references [MgrOp.releaseLogical] = true
    ∧ 0 ≤ (applyOps ⟨⟨[], []⟩, ⟨0, 1⟩⟩ [MgrOp.releaseLogical]).handle.references :=
  ⟨by decide,
   guarded_release_references_nonneg [MgrOp.releaseLogical] ⟨⟨[], []⟩, ⟨0, 1⟩⟩ (by decide) (by decide)⟩

/-! ## Unfolding and success-characterization helpers for `setSubData` -/

theorem setSubData_eq (dev : GPUBufferModel) (dst : Nat) (src : ArrayBufferView) (so bl : Nat) :
    setSubData dev dst src so bl =
      if (src.buffer.length : Int) - src.byteOffset <
          align4I ((if bl = 0 then (src.byteLength : Int) - so else (bl : Int)) + ((dst % 4 : Nat) : Int)) then
        match buildScratch src ((so : Int) - ((dst % 4 : Nat) : Int))
            (if bl = 0 then (src.byteLength : Int) - so else (bl : Int))
            (align4I ((if bl = 0 then (src.byteLength : Int) - so else (bl : Int)) + ((dst % 4 : Nat) : Int))) with
        | some tmp => setRawData dev ((dst : Int) - ((dst % 4 : Nat) : Int)) tmp 0
            (align4I ((if bl = 0 then (src.byteLength : Int) - so else (bl : Int)) + ((dst % 4 : Nat) : Int)))
        | none => none
      else setRawData dev ((dst : Int) - ((dst % 4 : Nat) : Int)) src ((so : Int) - ((dst % 4 : Nat) : Int))
            (align4I ((if bl = 0 then (src.byteLength : Int) - so else (bl : Int)) + ((dst % 4 : Nat) : Int))) :=
  rfl

theorem writeBuffer_eq_some (buf : GPUBufferModel) (bo : Int) (data : List Nat) (d0 sz : Int)
    (h1 : 0 ≤ bo) (h2 : 0 ≤ d0) (h3 : 0 ≤ sz) (h4 : bo % 4 = 0) (h5 : sz % 4 = 0)
    (h6 : d0 + sz ≤ (data.length : Int)) (h7 : bo + sz ≤ (buf.size : Int)) :
    writeBuffer buf bo data d0 sz = some ⟨buf.size, fun i =>
      if bo.toNat ≤ i ∧ i < bo.toNat + sz.toNat
      then data.getD (d0.toNat + (i - bo.toNat)) 0
      else buf.data i⟩ := by
  unfold writeBuffer
  rw [if_pos]
  exact ⟨h1, h2, h3, h4, h5, h6, h7⟩

theorem buildScratch_eq_some (src : ArrayBufferView) (adj olen blen : Int)
    (h1 : 0 ≤ blen) (h2 : 0 ≤ (src.byteOffset : Int) + adj) (h3 : 0 ≤ olen)
    (h4 : (src.byteOffset : Int) + adj + olen ≤ (src.buffer.length : Int)) (h5 : olen ≤ blen) :
    buildScratch src adj olen blen = some
      ⟨(src.buffer.drop ((src.byteOffset : Int) + adj).toNat).take olen.toNat
        ++ List.replicate (blen.toNat - olen.toNat) 0, 0, blen.toNat⟩ := by
  unfold buildScratch jsUint8ArraySlice
  rw [if_pos h1, if_pos ⟨h2, h3, h4⟩]
  have hlen : ((src.buffer.drop ((src.byteOffset : Int) + adj).toNat).take olen.toNat).length
      = olen.toNat := by
    simp only [List.length_take, List.length_drop]
    omega
  simp only [hlen]
  rw [if_pos (by omega)]

theorem setSubData_eq_fallback (dev : GPUBufferModel) (dst : Nat) (src : ArrayBufferView)
    (so bl : Nat) (tmp : ArrayBufferView)
    (htrig : (src.buffer.length : Int) - src.byteOffset <
      align4I ((if bl = 0 then (src.byteLength : Int) - so else (bl : Int)) + ((dst % 4 : Nat) : Int)))
    (hscratch : buildScratch src ((so : Int) - ((dst % 4 : Nat) : Int))
        (if bl = 0 then (src.byteLength : Int) - so else (bl : Int))
        (align4I ((if bl = 0 then (src.byteLength : Int) - so else (bl : Int)) + ((dst % 4 : Nat) : Int)))
      = some tmp) :
    setSubData dev dst src so bl =
      setRawData dev ((dst : Int) - ((dst % 4 : Nat) : Int)) tmp 0
        (align4I ((if bl = 0 then (src.byteLength : Int) - so else (bl : Int)) + ((dst % 4 : Nat) : Int))) := by
  rw [setSubData_eq, if_pos htrig, hscratch]

theorem setSubData_eq_nofallback (dev : GPUBufferModel) (dst : Nat) (src : ArrayBufferView)
    (so bl : Nat)
    (htrig : ¬ ((src.buffer.length : Int) - src.byteOffset <
      align4I ((if bl = 0 then (src.byteLength : Int) - so else (bl : Int)) + ((dst % 4 : Nat) : Int)))) :
    setSubData dev dst src so bl =
      setRawData dev ((dst : Int) - ((dst % 4 : Nat) : Int)) src ((so : Int) - ((dst % 4 : Nat) : Int))
        (align4I ((if bl = 0 then (src.byteLength : Int) - so else (bl : Int)) + ((dst % 4 : Nat) : Int))) := by
  rw [setSubData_eq, if_neg htrig]

theorem setSubData_isSome_fallback (dev : GPUBufferModel) (dst : Nat) (src : ArrayBufferView)
    (so bl : Nat) (blen A : Int)
    (hblen : blen = (if bl = 0 then (src.byteLength : Int) - so else (bl : Int)))
    (hA : A = align4I (blen + ((dst % 4 : Nat) : Int)))
    (h0 : 0 ≤ blen)
    (htrig : (src.buffer.length : Int) - src.byteOffset < A)
    (hlo : ((dst % 4 : Nat) : Int) ≤ (src.byteOffset : Int) + so)
    (hhi : (src.byteOffset : Int) + so - ((dst % 4 : Nat) : Int) + blen ≤ (src.buffer.length : Int))
    (hdev : (dst : Int) - ((dst % 4 : Nat) : Int) + A ≤ (dev.size : Int)) :
    (setSubData dev dst src so bl).isSome = true := by
  have hAle : blen + ((dst % 4 : Nat) : Int) ≤ A := hA ▸ align4I_le _
  have hA4 : A % 4 = 0 := hA ▸ align4I_emod_four _
  have hA0 : 0 ≤ A := hA ▸ align4I_nonneg _ (by positivity)
  rw [setSubData_eq_fallback dev dst src so bl _ (by rw [← hblen, ← hA]; exact htrig)
    (by rw [← hblen, ← hA]
        exact buildScratch_eq_some src ((so : Int) - ((dst % 4 : Nat) : Int)) blen A hA0
          (by omega) h0 (by omega) (by omega))]
  unfold setRawData
  rw [← hblen, ← hA]
  rw [writeBuffer_eq_some _ _ _ _ _ (by omega) (by omega) hA0 (by omega) hA4
    (by simp only [List.length_append, List.length_take, List.length_drop, List.length_replicate]
        push_cast
        omega)
    (by simpa using hdev)]
  rfl

theorem setSubData_isSome_nofallback (dev : GPUBufferModel) (dst : Nat) (src : ArrayBufferView)
    (so bl : Nat) (blen A : Int)
    (hblen : blen = (if bl = 0 then (src.byteLength : Int) - so else (bl : Int)))
    (hA : A = align4I (blen + ((dst % 4 : Nat) : Int)))
    (h0 : 0 ≤ blen)
    (hnf : ¬ ((src.buffer.length : Int) - src.byteOffset < A))
    (hlo : ((dst % 4 : Nat) : Int) ≤ (src.byteOffset : Int) + so)
    (hhi : (src.byteOffset : Int) + so - ((dst % 4 : Nat) : Int) + A ≤ (src.buffer.length : Int))
    (hdev : (dst : Int) - ((dst % 4 : Nat) : Int) + A ≤ (dev.size : Int)) :
    (setSubData dev dst src so bl).isSome = true := by
  have hAle : blen + ((dst % 4 : Nat) : Int) ≤ A := hA ▸ align4I_le _
  have hA4 : A % 4 = 0 := hA ▸ align4I_emod_four _
  have hA0 : 0 ≤ A := hA ▸ align4I_nonneg _ (by positivity)
  rw [setSubData_eq_nofallback dev dst src so bl (by rw [← hblen, ← hA]; exact hnf)]
  unfold setRawData
  rw [← hblen, ← hA]
  rw [writeBuffer_eq_some _ _ _ _ _ (by omega) (by omega) hA0 (by omega) hA4
    (by omega) hdev]
  rfl

theorem writeBuffer_size (buf : GPUBufferModel) (bo : Int) (data : List Nat) (d0 sz : Int)
    (b2 : GPUBufferModel) (h1 : writeBuffer buf bo data d0 sz = some b2) : b2.size = buf.size := by
  unfold writeBuffer at h1
  split_ifs at h1 with hc
  · cases h1
    rfl

theorem setSubData_size (dev : GPUBufferModel) (dst : Nat) (src : ArrayBufferView) (so bl : Nat)
    (dev2 : GPUBufferModel) (h1 : setSubData dev dst src so bl = some dev2) : dev2.size = dev.size := by
  rw [setSubData_eq] at h1
  generalize hb : (if bl = 0 then ((src.byteLength : Int) - (so : Int)) else ((bl : Nat) : Int)) = blen at h1
  generalize hs : buildScratch src ((so : Int) - ((dst % 4 : Nat) : Int)) blen
      (align4I (blen + ((dst % 4 : Nat) : Int))) = ob at h1
  split at h1
  · cases ob with
    | some tmp =>
        unfold setRawData at h1
        exact writeBuffer_size _ _ _ _ _ _ h1
    | none => exact absurd h1 (by simp)
  · unfold setRawData at h1
    exact writeBuffer_size _ _ _ _ _ _ h1

theorem setSubData_view_zero_some (dev : GPUBufferModel) (v : ArrayBufferView)
    (hv : v.byteOffset + v.byteLength ≤ v.buffer.length)
    (hdev : (align4 v.byteLength : Int) ≤ (dev.size : Int)) :
    (setSubData dev 0 v 0 0).isSome = true := by
  have h1 := align4_le v.byteLength
  have h2 := align4_mod_four v.byteLength
  by_cases hfb : (v.buffer.length : Int) - v.byteOffset < (align4 v.byteLength : Int)
  · exact setSubData_isSome_fallback dev 0 v 0 0 (v.byteLength : Int) (align4 v.byteLength : Int)
      (by norm_num) (by norm_num [align4I_natCast]) (by positivity) hfb
      (by norm_num) (by push_cast; omega) (by push_cast; omega)
  · exact setSubData_isSome_nofallback dev 0 v 0 0 (v.byteLength : Int) (align4 v.byteLength : Int)
      (by norm_num) (by norm_num [align4I_natCast]) (by positivity) hfb
      (by norm_num) (by push_cast; omega) (by push_cast; omega)

/-! ## Compaction-loop helpers -/

theorem copyBytesLoop_apply (n : Nat) : ∀ (d : Nat → Nat) (dst src : Nat), dst ≤ src →
    ∀ i, copyBytesLoop d dst src n i =
      if dst ≤ i ∧ i < dst + n then d (src + (i - dst)) else d i := by
  induction n with
  | zero =>
      intro d dst src _ i
      rw [if_neg (by omega)]
      rfl
  | succ n ih =>
      intro d dst src hle i
      show copyBytesLoop (Function.update d dst (d src)) (dst + 1) (src + 1) n i = _
      rw [ih (Function.update d dst (d src)) (dst + 1) (src + 1) (by omega) i]
      by_cases h1 : dst + 1 ≤ i ∧ i < dst + 1 + n
      · rw [if_pos h1, if_pos (by omega)]
        rw [Function.update_noteq (by omega)]
        have h2 : src + 1 + (i - (dst + 1)) = src + (i - dst) := by omega
        rw [h2]
      · rw [if_neg h1]
        by_cases h2 : i = dst
        · subst h2
          rw [Function.update_same, if_pos (by omega)]
          have h3 : src + (i - i) = src := by omega
          rw [h3]
        · rw [Function.update_noteq h2, if_neg (by omega)]

theorem compactRowsAux_bpr_zero (bpra : Nat) : ∀ (n : Nat) (d : Nat → Nat) (off y : Nat),
    (compactRowsAux d off 0 bpra y n).1 = d ∧ (compactRowsAux d off 0 bpra y n).2 = off := by
  intro n
  induction n with
  | zero => intro d off y; exact ⟨rfl, rfl⟩
  | succ n ih =>
      intro d off y
      show (compactRowsAux (copyBytesLoop d off (y * bpra) 0) (off + 0) 0 bpra (y + 1) n).1 = d
        ∧ (compactRowsAux (copyBytesLoop d off (y * bpra) 0) (off + 0) 0 bpra (y + 1) n).2 = off
      exact ih d off (y + 1)

theorem compactRowsAux_apply (bpr bpra : Nat) (hle : bpr ≤ bpra) :
    ∀ (n y : Nat) (d : Nat → Nat),
      (compactRowsAux d (y * bpr) bpr bpra y n).2 = (y + n) * bpr
      ∧ ∀ i, (compactRowsAux d (y * bpr) bpr bpra y n).1 i =
          if y * bpr ≤ i ∧ i < (y + n) * bpr then d (i / bpr * bpra + i % bpr) else d i := by
  rcases Nat.eq_zero_or_pos bpr with hbpr | hbpr
  · subst hbpr
    intro n y d
    constructor
    · rw [(compactRowsAux_bpr_zero bpra n d (y * 0) y).2]
      ring
    · intro i
      rw [(compactRowsAux_bpr_zero bpra n d (y * 0) y).1]
      rw [if_neg (by simp)]
  · intro n
    induction n with
    | zero =>
        intro y d
        constructor
        · rfl
        · intro i
          rw [if_neg (by
            have hz : (y + 0) * bpr = y * bpr := by ring
            omega)]
          rfl
    | succ n ih =>
        intro y d
        have hstep : compactRowsAux d (y * bpr) bpr bpra y (n + 1)
            = compactRowsAux (copyBytesLoop d (y * bpr) (y * bpra) bpr) ((y + 1) * bpr) bpr bpra (y + 1) n := by
          show compactRowsAux (copyBytesLoop d (y * bpr) (y * bpra) bpr) (y * bpr + bpr) bpr bpra (y + 1) n = _
          have h1 : y * bpr + bpr = (y + 1) * bpr := by ring
          rw [h1]
        have hdstsrc : y * bpr ≤ y * bpra := Nat.mul_le_mul_left y hle
        obtain ⟨ih2, ih1⟩ := ih (y + 1) (copyBytesLoop d (y * bpr) (y * bpra) bpr)
        have h4 : (y + 1) * bpr = y * bpr + bpr := by ring
        have h6 : (y + 1 + n) * bpr = (y + (n + 1)) * bpr := by ring
        have h5 : (y + (n + 1)) * bpr = y * bpr + bpr + n * bpr := by ring
        constructor
        · rw [hstep, ih2]
          ring
        · intro i
          rw [hstep, ih1 i]
          by_cases h1 : (y + 1) * bpr ≤ i ∧ i < (y + 1 + n) * bpr
          · rw [if_pos h1]
            have hdiv : y + 1 ≤ i / bpr := (Nat.le_div_iff_mul_le hbpr).2 h1.1
            have harg : y * bpr + bpr ≤ i / bpr * bpra + i % bpr := by
              have h2 : (y + 1) * bpra ≤ i / bpr * bpra := Nat.mul_le_mul_right bpra hdiv
              have h3 : (y + 1) * bpr ≤ (y + 1) * bpra := Nat.mul_le_mul_left (y + 1) hle
              omega
            rw [copyBytesLoop_apply bpr d (y * bpr) (y * bpra) hdstsrc, if_neg (by omega)]
            rw [if_pos (by refine ⟨by omega, by omega⟩)]
          · rw [if_neg h1]
            rw [copyBytesLoop_apply bpr d (y * bpr) (y * bpra) hdstsrc i]
            by_cases h2 : y * bpr ≤ i ∧ i < y * bpr + bpr
            · rw [if_pos h2]
              have hdiv : i / bpr = y := Nat.div_eq_of_lt_le h2.1 (by omega)
              have hmod : i % bpr = i - y * bpr := by
                have h7 := Nat.div_add_mod i bpr
                rw [hdiv] at h7
                have h8 : bpr * y = y * bpr := Nat.mul_comm bpr y
                omega
              rw [if_pos (by refine ⟨h2.1, by omega⟩)]
              rw [hdiv, hmod]
            · rw [if_neg h2]
              rw [if_neg (by
                intro h3
                apply h1
                refine ⟨by omega, by omega⟩)]

theorem getD_map_range (L : Nat) (f : Nat → Nat) (j : Nat) (hj : j < L) :
    ((List.range L).map f).getD j 0 = f j := by
  rw [List.getD_eq_getElem?_getD, List.getElem?_map, List.getElem?_range hj]
  rfl

/-- C1 counterexample: the write is performed (it returns `some`), yet the
read-back of the requested 6-byte window at destination offset 2 yields
`[20, 21, 22, 23, 0, 0]` while the source bytes were `[20, 21, 22, 23, 24, 25]`:
the scratch fallback at a non-4-aligned destination drops the last
`start_pad` source bytes, so the round-trip fails. -/
theorem setSubData_roundtrip_cex :
    ((setSubData ⟨12, fun _ => 7⟩ 2 ⟨[10,11,12,13,20,21,22,23,24,25], 4, 6⟩ 0 0).map
      (fun b => (List.range 6).map fun k => b.data (2 + k))) = some [20, 21, 22, 23, 0, 0]
    ∧ (List.range 6).map (fun k => [10,11,12,13,20,21,22,23,24,25].getD (4 + 0 + k) 0)
        = [20, 21, 22, 23, 24, 25]
    ∧ ([20, 21, 22, 23, 0, 0] : List Nat) ≠ [20, 21, 22, 23, 24, 25] := by
  decide

/-- C1 (amended): the `setSubData` round-trip holds — every byte of the
requested window reads back as the corresponding source byte — provided the
scratch fallback is not taken (the backing buffer from the view's start has
at least the aligned length) and the widened windows stay inside the source
backing buffer and the device buffer. -/
theorem setSubData_roundtrip_amended (dev : GPUBufferModel) (dst : Nat) (src : ArrayBufferView)
    (so bl : Nat) (blen A : Int)
    (hblen : blen = (if bl = 0 then (src.byteLength : Int) - so else (bl : Int)))
    (hA : A = align4I (blen + ((dst % 4 : Nat) : Int)))
    (h0 : 0 ≤ blen)
    (hlo : ((dst % 4 : Nat) : Int) ≤ (src.byteOffset : Int) + so)
    (hnf : A ≤ (src.buffer.length : Int) - src.byteOffset)
    (hhi : (src.byteOffset : Int) + so - ((dst % 4 : Nat) : Int) + A ≤ (src.buffer.length : Int))
    (hdev : (dst : Int) - ((dst % 4 : Nat) : Int) + A ≤ (dev.size : Int)) :
    ∃ dev2, setSubData dev dst src so bl = some dev2 ∧
      ∀ k : Nat, (k : Int) < blen →
        dev2.data (dst + k) = src.buffer.getD (src.byteOffset + so + k) 0 := by
  have hAle : blen + ((dst % 4 : Nat) : Int) ≤ A := hA ▸ align4I_le _
  have hA4 : A % 4 = 0 := hA ▸ align4I_emod_four _
  have hA0 : 0 ≤ A := hA ▸ align4I_nonneg _ (by positivity)
  rw [setSubData_eq_nofallback dev dst src so bl (by rw [← hblen, ← hA]; omega)]
  unfold setRawData
  rw [← hblen, ← hA]
  rw [writeBuffer_eq_some _ _ _ _ _ (by omega) (by omega) hA0 (by omega) hA4
    (by omega) hdev]
  refine ⟨_, rfl, ?_⟩
  intro k hk
  simp only
  rw [if_pos (by constructor <;> omega)]
  have harg : ((so : Int) - ((dst % 4 : Nat) : Int) + (src.byteOffset : Int)).toNat
      + (dst + k - ((dst : Int) - ((dst % 4 : Nat) : Int)).toNat)
      = src.byteOffset + so + k := by omega
  rw [harg]

theorem setSubData_roundtrip_amended_witness :
    ∃ dev2, setSubData ⟨16, fun _ => 0⟩ 2 ⟨List.range 16, 4, 8⟩ 2 4 = some dev2 ∧
      ∀ k : Nat, (k : Int) < 4 →
        dev2.data (2 + k) = (List.range 16).getD (4 + 2 + k) 0 :=
  setSubData_roundtrip_amended ⟨16, fun _ => 0⟩ 2 ⟨List.range 16, 4, 8⟩ 2 4 4 8
    (by decide) (by decide) (by decide) (by decide) (by decide) (by decide) (by decide)

/-- C2 counterexample: at destination offset 2 over a 6-byte view starting at
backing offset 4 of a 10-byte buffer, the scratch buffer built by the
fallback is `[12, 13, 20, 21, 22, 23, 0, 0]`: its leading-gap bytes are the
two backing bytes just BEFORE the view (12, 13 — an out-of-view read, not
zeros), and the window's last two source bytes (24, 25) are replaced by the
zero tail, contradicting the claimed layout `[0, 0, 20, 21, 22, 23, 24, 25]`. -/
theorem setSubData_scratch_cex :
    buildScratch ⟨[10,11,12,13,20,21,22,23,24,25], 4, 6⟩ (0 - 2) 6 8
      = some ⟨[12, 13, 20, 21, 22, 23, 0, 0], 0, 8⟩
    ∧ ((setSubData ⟨12, fun _ => 7⟩ 2 ⟨[10,11,12,13,20,21,22,23,24,25], 4, 6⟩ 0 0).map
        (fun b => (List.range 8).map b.data)) = some [12, 13, 20, 21, 22, 23, 0, 0]
    ∧ ([12, 13, 20, 21, 22, 23, 0, 0] : List Nat) ≠ [0, 0] ++ [20, 21, 22, 23, 24, 25]
    ∧ ([12, 13, 20, 21, 22, 23, 0, 0] : List Nat).getD 0 0 ≠ 0 := by
  decide

/-- C2 (amended): when the backing storage measured from the VIEW's start
(not from the adjusted source offset) has fewer than the aligned
`byteLength` bytes, the fallback builds a scratch buffer of exactly
`byteLength` bytes whose first `originalByteLength` bytes are read from the
backing buffer starting `start_pad` bytes BEFORE the requested source
position (placed at scratch offset 0) and whose tail is zero; the read may
touch bytes outside the caller-supplied view, and `setSubData` then delegates
to `setRawData` on that scratch. -/
theorem setSubData_scratch_amended (dev : GPUBufferModel) (dst : Nat) (src : ArrayBufferView)
    (so bl : Nat) (blen A : Int)
    (hblen : blen = (if bl = 0 then (src.byteLength : Int) - so else (bl : Int)))
    (hA : A = align4I (blen + ((dst % 4 : Nat) : Int)))
    (h0 : 0 ≤ blen)
    (htrig : (src.buffer.length : Int) - src.byteOffset < A)
    (hlo : ((dst % 4 : Nat) : Int) ≤ (src.byteOffset : Int) + so)
    (hhi : (src.byteOffset : Int) + so - ((dst % 4 : Nat) : Int) + blen ≤ (src.buffer.length : Int)) :
    buildScratch src ((so : Int) - ((dst % 4 : Nat) : Int)) blen A = some
      ⟨(src.buffer.drop ((src.byteOffset : Int) + ((so : Int) - ((dst % 4 : Nat) : Int))).toNat).take blen.toNat
        ++ List.replicate (A.toNat - blen.toNat) 0, 0, A.toNat⟩
    ∧ setSubData dev dst src so bl =
        setRawData dev ((dst : Int) - ((dst % 4 : Nat) : Int))
          ⟨(src.buffer.drop ((src.byteOffset : Int) + ((so : Int) - ((dst % 4 : Nat) : Int))).toNat).take blen.toNat
            ++ List.replicate (A.toNat - blen.toNat) 0, 0, A.toNat⟩ 0 A := by
  have hAle : blen + ((dst % 4 : Nat) : Int) ≤ A := hA ▸ align4I_le _
  have hA0 : 0 ≤ A := hA ▸ align4I_nonneg _ (by positivity)
  have hsc := buildScratch_eq_some src ((so : Int) - ((dst % 4 : Nat) : Int)) blen A hA0
    (by omega) h0 (by omega) (by omega)
  refine ⟨hsc, ?_⟩
  rw [setSubData_eq_fallback dev dst src so bl _ (by rw [← hblen, ← hA]; exact htrig)
    (by rw [← hblen, ← hA]; exact hsc)]
  rw [← hblen, ← hA]

theorem setSubData_scratch_amended_witness :
    (buildScratch ⟨List.range 10, 4, 6⟩ (((2 : Nat) : Int) - (((2 : Nat) % 4 : Nat) : Int)) 4 8).isSome
      = true := by
  rw [(setSubData_scratch_amended ⟨16, fun _ => 0⟩ 2 ⟨List.range 10, 4, 6⟩ 2 4 4 8
    (by decide) (by decide) (by decide) (by decide) (by decide) (by decide)).1]
  rfl

/-- C3 counterexample: `setSubData` is NOT total — at destination offset 2
with a source view covering its whole 8-byte backing buffer, the aligned
length is 12, the fallback triggers, and the scratch copy's shifted read
offset is `-2`, a thrown `RangeError` (`none` in the model). -/
theorem setSubData_unaligned_tight_source_fails :
    (setSubData ⟨16, fun _ => 0⟩ 2 ⟨[1,2,3,4,5,6,7,8], 0, 8⟩ 0 0).isSome = false := by
  decide

/-- C3 (amended): `setSubData` completes successfully provided the widened
source window — shifted back `start_pad` bytes and extended to the aligned
length — lies within the source's backing buffer, and the aligned
destination window fits the device buffer. -/
theorem setSubData_total_amended (dev : GPUBufferModel) (dst : Nat) (src : ArrayBufferView)
    (so bl : Nat) (blen A : Int)
    (hblen : blen = (if bl = 0 then (src.byteLength : Int) - so else (bl : Int)))
    (hA : A = align4I (blen + ((dst % 4 : Nat) : Int)))
    (h0 : 0 ≤ blen)
    (hlo : ((dst % 4 : Nat) : Int) ≤ (src.byteOffset : Int) + so)
    (hhi : (src.byteOffset : Int) + so - ((dst % 4 : Nat) : Int) + A ≤ (src.buffer.length : Int))
    (hdev : (dst : Int) - ((dst % 4 : Nat) : Int) + A ≤ (dev.size : Int)) :
    (setSubData dev dst src so bl).isSome = true := by
  have hAle : blen + ((dst % 4 : Nat) : Int) ≤ A := hA ▸ align4I_le _
  by_cases hfb : (src.buffer.length : Int) - src.byteOffset < A
  · exact setSubData_isSome_fallback dev dst src so bl blen A hblen hA h0 hfb hlo (by omega) hdev
  · exact setSubData_isSome_nofallback dev dst src so bl blen A hblen hA h0 hfb hlo (by omega) hdev

theorem setSubData_total_amended_witness :
    (setSubData ⟨16, fun _ => 0⟩ 2 ⟨List.range 16, 4, 8⟩ 2 4).isSome = true :=
  setSubData_total_amended ⟨16, fun _ => 0⟩ 2 ⟨List.range 16, 4, 8⟩ 2 4 4 8
    (by decide) (by decide) (by decide) (by decide) (by decide) (by decide)

/-- C7: when `bytesPerRow < bytesPerRowAligned`, the compaction pass leaves
row 0 in place, moves exactly `bytesPerRow` meaningful bytes of each row
`1 ≤ y < height` from its aligned-stride offset `y * bytesPerRowAligned`
down to the tightly-packed offset `y * bytesPerRow`, and the re-windowed
view's byte length is `bytesPerRow * height` — with both row widths doubled
first when half-float promotion occurred (`floatFormat = 1` and conversion
enabled). -/
theorem rowCompaction_spec (data : Nat → Nat) (dataLen bytesPerRow bytesPerRowAligned height floatFormat : Nat)
    (ndc : Bool) (hlt : bytesPerRow < bytesPerRowAligned) (hh : 1 ≤ height) :
    (rowCompactionPass data dataLen bytesPerRow bytesPerRowAligned height floatFormat ndc).2
        = (if floatFormat = 1 ∧ ndc = false then bytesPerRow * 2 else bytesPerRow) * height
    ∧ ∀ y x, y < height →
        x < (if floatFormat = 1 ∧ ndc = false then bytesPerRow * 2 else bytesPerRow) →
        (rowCompactionPass data dataLen bytesPerRow bytesPerRowAligned height floatFormat ndc).1
            (y * (if floatFormat = 1 ∧ ndc = false then bytesPerRow * 2 else bytesPerRow) + x)
          = data (y * (if floatFormat = 1 ∧ ndc = false then bytesPerRowAligned * 2 else bytesPerRowAligned) + x) := by
  have hpass : rowCompactionPass data dataLen bytesPerRow bytesPerRowAligned height floatFormat ndc
      = compactRowsAux data
          (if floatFormat = 1 ∧ ndc = false then bytesPerRow * 2 else bytesPerRow)
          (if floatFormat = 1 ∧ ndc = false then bytesPerRow * 2 else bytesPerRow)
          (if floatFormat = 1 ∧ ndc = false then bytesPerRowAligned * 2 else bytesPerRowAligned)
          1 (height - 1) := by
    unfold rowCompactionPass
    rw [if_neg (by omega)]
  set B := if floatFormat = 1 ∧ ndc = false then bytesPerRow * 2 else bytesPerRow with hB
  set BA := if floatFormat = 1 ∧ ndc = false then bytesPerRowAligned * 2 else bytesPerRowAligned with hBA
  have hle : B ≤ BA := by
    rw [hB, hBA]
    split <;> omega
  have hone : (1 : Nat) * B = B := Nat.one_mul B
  obtain ⟨hoff, hdata⟩ := compactRowsAux_apply B BA hle (height - 1) 1 data
  rw [hone] at hoff hdata
  constructor
  · rw [hpass, hoff]
    have h1 : (1 + (height - 1)) = height := by omega
    rw [h1, Nat.mul_comm]
  · intro y x hy hx
    rw [hpass, hdata (y * B + x)]
    have h1 : (1 + (height - 1)) = height := by omega
    rw [h1]
    rcases Nat.eq_zero_or_pos y with hy0 | hy0
    · subst hy0
      rw [if_neg (by
        have h2 : (0 : Nat) * B = 0 := by ring
        omega)]
      have h3 : (0 : Nat) * B + x = x := by ring
      have h4 : (0 : Nat) * BA + x = x := by ring
      rw [h3, h4]
    · have hBpos : 0 < B := by omega
      have hcond : B ≤ y * B + x ∧ y * B + x < height * B := by
        constructor
        · have h2 : 1 * B ≤ y * B := Nat.mul_le_mul_right B hy0
          omega
        · have h2 : (y + 1) * B ≤ height * B := Nat.mul_le_mul_right B (by omega)
          have h3 : (y + 1) * B = y * B + B := by ring
          omega
      rw [if_pos hcond]
      have hdiv : (y * B + x) / B = y := by
        have h7 : y * B ≤ y * B + x := by omega
        have h8 : (y + 1) * B = y * B + B := by ring
        exact Nat.div_eq_of_lt_le h7 (by omega)
      have hmod : (y * B + x) % B = x := by
        have h7 := Nat.div_add_mod (y * B + x) B
        rw [hdiv] at h7
        have h8 : B * y = y * B := Nat.mul_comm B y
        omega
      rw [hdiv, hmod]

theorem rowCompaction_spec_witness :
    (rowCompactionPass (fun i => i) 12 2 4 3 0 false).2
        = (if (0 : Nat) = 1 ∧ false = false then 2 * 2 else 2) * 3
    ∧ (rowCompactionPass (fun i => i) 12 2 4 3 0 false).1
        (1 * (if (0 : Nat) = 1 ∧ false = false then 2 * 2 else 2) + 1)
      = (fun i => i) (1 * (if (0 : Nat) = 1 ∧ false = false then 4 * 2 else 4) + 1) :=
  ⟨(rowCompaction_spec (fun i => i) 12 2 4 3 0 false (by decide) (by decide)).1,
   (rowCompaction_spec (fun i => i) 12 2 4 3 0 false (by decide) (by decide)).2 1 1
     (by decide) (by decide)⟩

/-- C9: the raw device buffer behind a request of `N` bytes is allocated with
size `(N + 3) & ~3` — always at least `N` and a multiple of 4 — while the
logical handle produced by `createBuffer` carries the pre-alignment
`capacity = N`, `references = 1` and the engine's `uniqueId`. -/
theorem createBuffer_spec (eid N : Nat) (v : ArrayBufferView)
    (hN : v.byteLength = N)
    (hv : v.byteOffset + v.byteLength ≤ v.buffer.length) :
    (createRawBuffer (.size N)).size = align4 N
    ∧ align4 N = N + 3 - (N + 3) % 4
    ∧ N ≤ align4 N
    ∧ align4 N % 4 = 0
    ∧ createBuffer eid (.size N) = some ⟨⟨align4 N, fun _ => 0⟩, 1, N, eid⟩
    ∧ ∃ b, createBuffer eid (.view v) = some b
        ∧ b.capacity = N ∧ b.references = 1 ∧ b.engineId = eid ∧ b.buffer.size = align4 N := by
  refine ⟨rfl, rfl, align4_le N, align4_mod_four N, rfl, ?_⟩
  have hsome := setSubData_view_zero_some (createRawBuffer (.view v)) v hv
    (by
      show (align4 v.byteLength : Int) ≤ (align4 (ViewOrSize.byteLen (.view v)) : Int)
      rfl)
  rw [Option.isSome_iff_exists] at hsome
  obtain ⟨raw2, hraw2⟩ := hsome
  refine ⟨⟨raw2, 1, v.byteLength, eid⟩, ?_, hN, rfl, rfl, ?_⟩
  · show (match setSubData (createRawBuffer (ViewOrSize.view v)) 0 v 0 0 with
      | some raw2 => some (⟨raw2, 1, v.byteLength, eid⟩ : WebGPUDataBuffer)
      | none => none) = some ⟨raw2, 1, v.byteLength, eid⟩
    rw [hraw2]
  · have hsz := setSubData_size (createRawBuffer (.view v)) 0 v 0 0 raw2 hraw2
    show raw2.size = align4 N
    rw [hsz, ← hN]
    rfl

theorem createBuffer_spec_witness :
    ∃ b, createBuffer 3 (.view ⟨[1,2,3,4,5], 0, 5⟩) = some b
      ∧ b.capacity = 5 ∧ b.references = 1 ∧ b.engineId = 3 ∧ b.buffer.size = align4 5 :=
  (createBuffer_spec 3 5 ⟨[1,2,3,4,5], 0, 5⟩ rfl (by decide)).2.2.2.2.2

/-- C10 counterexample: with a caller-supplied half-float destination that is
a one-element subview at word offset 1 of a two-word backing buffer, the
promoted value of the half-float `1.0` (`0x3C00` → `0x3F800000`) is written
at the SUBVIEW's position (word 1), while backing word 0 keeps its old value
`0` — the converted output is not placed at the start of the backing buffer
as the claim states for every conversion path. -/
theorem halfFloatReadback_dest_cex :
    getHalfFloatAsFloatRGBA [0, 0] 1 1 [15360] 1 = [0, 1065353216]
    ∧ (getHalfFloatAsFloatRGBA [0, 0] 1 1 [15360] 1).getD 0 0 ≠ fromHalfFloatBits 15360
    ∧ fromHalfFloatBits 15360 ≠ 0 := by
  decide

/-- C10 (amended): with conversion enabled and a caller-supplied destination
view, the unsigned-byte and float paths write the output into the view's
entire backing buffer starting at byte offset 0 — the view's own
`byteOffset`/`byteLength` are disregarded — whereas the half-float path
writes the promoted elements THROUGH the view, honouring its element offset. -/
theorem readbackDestWrite_spec :
    (∀ (buf : List Nat) (bo len bo2 len2 : Nat) (mapped : List Nat),
      writeReadbackToDest ⟨buf, bo, len⟩ mapped = writeReadbackToDest ⟨buf, bo2, len2⟩ mapped)
    ∧ (∀ (dest : ArrayBufferView) (mapped : List Nat), mapped.length ≤ dest.buffer.length →
        writeReadbackToDest dest mapped = some (mapped ++ dest.buffer.drop mapped.length))
    ∧ (∀ (destWords : List Nat) (wo wl : Nat) (srcHalves : List Nat) (n : Nat),
        (∀ j, j < wo → j < destWords.length →
          (getHalfFloatAsFloatRGBA destWords wo wl srcHalves n).getD j 0 = destWords.getD j 0)
        ∧ (∀ i, i < min n wl → wo + i < destWords.length →
            (getHalfFloatAsFloatRGBA destWords wo wl srcHalves n).getD (wo + i) 0
              = fromHalfFloatBits (srcHalves.getD i 0))) := by
  refine ⟨fun buf bo len bo2 len2 mapped => rfl, fun dest mapped h1 => ?_, ?_⟩
  · unfold writeReadbackToDest
    rw [if_pos h1]
  · intro destWords wo wl srcHalves n
    constructor
    · intro j hj hjlen
      unfold getHalfFloatAsFloatRGBA
      rw [getD_map_range _ _ _ hjlen, if_neg (by omega)]
    · intro i hi hlen
      unfold getHalfFloatAsFloatRGBA
      rw [getD_map_range _ _ _ hlen, if_pos (by omega)]
      have h2 : wo + i - wo = i := by omega
      rw [h2]

theorem readbackDestWrite_spec_witness :
    writeReadbackToDest ⟨[9, 9, 9], 1, 1⟩ [7, 8] = some ([7, 8] ++ [9, 9, 9].drop 2)
    ∧ (getHalfFloatAsFloatRGBA [5, 5] 1 1 [15360] 1).getD 0 0 = [5, 5].getD 0 0
    ∧ (getHalfFloatAsFloatRGBA [5, 5] 1 1 [15360] 1).getD (1 + 0) 0
        = fromHalfFloatBits ([15360].getD 0 0) :=
  ⟨readbackDestWrite_spec.2.1 ⟨[9, 9, 9], 1, 1⟩ [7, 8] (by decide),
   (readbackDestWrite_spec.2.2 [5, 5] 1 1 [15360] 1).1 0 (by decide) (by decide),
   (readbackDestWrite_spec.2.2 [5, 5] 1 1 [15360] 1).2 0 (by decide) (by decide)⟩
